import Mathlib

/-!
Verification of the activate-rag-vllm repository against its specification.

The development shallowly embeds the pure/algorithmic core of the three
source files:

* `indexer.py` — `chunk_text_with_spans`, `_chroma_add_with_retries`,
  `Indexer.upsert_file` (seen-table/mtime logic, empty-text deletion,
  dual-store write sequence);
* `rag_proxy.py` — `token_len` (character fallback), `_pack_numbered_chat`,
  `_pack_numbered_prompt`, `CITE_RE` scanning, `extract_used_citations`;
* `rag_server.py` — the `/search` endpoint's post-hoc substring filter with
  widening, on top of `Retriever.search`.

Python strings are modelled as `List Char` (sequences of code points);
Python non-negative ints as `Nat`, values that may go negative as `Int`.
External collaborators (embedding model, tokenizer, vector store, text
extraction) are parameters of the embedding, exactly as the spec declares
them out of scope.
-/

namespace ActivateRag

/-! ### `chunk_text_with_spans` (indexer.py)

The Python source is a `while i < n` loop:

    out = []
    i = 0
    n = len(text)
    while i < n:
        j = min(i + size, n)
        out.append((text[i:j], (i, j)))
        if j >= n:
            break
        i = max(0, j - overlap)
    return out

The loop need not terminate (see claim C3), so the embedding is
fuel-indexed: `none` means the fuel ran out before the loop finished.
`max(0, j - overlap)` is truncated subtraction `j - overlap` on `Nat`.
-/

def chunkFuel (text : List Char) (size overlap : Nat) : Nat → Nat → Option (List (List Char × Nat × Nat))
  | 0, _ => none
  | fuel + 1, i =>
    if i < text.length then
      let j := min (i + size) text.length
      let piece := ((text.drop i).take (j - i), (i, j))
      if text.length ≤ j then some [piece]
      else
        match chunkFuel text size overlap fuel (j - overlap) with
        | none => none
        | some rest => some (piece :: rest)
    else some []

/-- The loop of `chunk_text_with_spans` terminates from window start 0. -/
def ChunkTerminates (text : List Char) (size overlap : Nat) : Prop :=
  ∃ fuel, (chunkFuel text size overlap fuel 0).isSome

/-- `chunk_text_with_spans(text, size, overlap)`: the loop run with enough
fuel for the terminating configurations (`overlap < size`, where each
iteration advances the start by at least one character). -/
def chunk_text_with_spans (text : List Char) (size overlap : Nat) : List (List Char × Nat × Nat) :=
  (chunkFuel text size overlap (text.length + 1) 0).getD []

/-- Concatenating the chunks in order minus the agreed overlap: the first
chunk whole, every later chunk with its first `overlap` characters dropped. -/
def chunkConcat (overlap : Nat) : List (List Char × Nat × Nat) → List Char
  | [] => []
  | c :: rest => c.1 ++ (rest.map (fun d => d.1.drop overlap)).flatten

/-- Exact shape of a terminating run of the chunking loop started at `i`:
either the window reaches the end of the text, or a full-size window is
emitted and the run continues from `i + size - overlap`. -/
inductive ChunkChain (text : List Char) (size overlap : Nat) : Nat → List (List Char × Nat × Nat) → Prop
  | last (i : Nat) (h₁ : i < text.length) (h₂ : text.length ≤ i + size) :
      ChunkChain text size overlap i [((text.drop i).take (text.length - i), (i, text.length))]
  | step (i : Nat) (rest : List (List Char × Nat × Nat))
      (h₁ : i < text.length) (h₂ : i + size < text.length)
      (h₃ : ChunkChain text size overlap (i + size - overlap) rest) :
      ChunkChain text size overlap i (((text.drop i).take size, (i, i + size)) :: rest)

theorem chunkFuel_chain (text : List Char) (size overlap : Nat) (hso : overlap < size) :
    ∀ fuel i, i < text.length → text.length - i ≤ fuel →
      ∃ cs, chunkFuel text size overlap fuel i = some cs ∧ ChunkChain text size overlap i cs := by
  intro fuel
  induction fuel with
  | zero => intro i hi hfu; omega
  | succ fuel ih =>
    intro i hi hfu
    by_cases hend : text.length ≤ i + size
    · refine ⟨_, ?_, ChunkChain.last i hi hend⟩
      simp only [chunkFuel, hi, if_pos]
      have hj : min (i + size) text.length = text.length := by omega
      simp [hj, hend]
    · push_neg at hend
      have hj : min (i + size) text.length = i + size := by omega
      have hi' : i + size - overlap < text.length := by omega
      have hfu' : text.length - (i + size - overlap) ≤ fuel := by omega
      obtain ⟨cs, hcs, hchain⟩ := ih (i + size - overlap) hi' hfu'
      refine ⟨_, ?_, ChunkChain.step i cs hi hend hchain⟩
      simp only [chunkFuel, hi, if_pos]
      have : ¬ text.length ≤ i + size := by omega
      simp [hj, this, hcs]

theorem chunk_text_with_spans_chain (text : List Char) (size overlap : Nat)
    (hso : overlap < size) (hne : text ≠ []) :
    ChunkChain text size overlap 0 (chunk_text_with_spans text size overlap) := by
  have hl : 0 < text.length := List.length_pos.mpr hne
  obtain ⟨cs, hcs, hchain⟩ :=
    chunkFuel_chain text size overlap hso (text.length + 1) 0 hl (by omega)
  unfold chunk_text_with_spans
  rw [hcs]
  exact hchain

theorem chunk_text_with_spans_nil (size overlap : Nat) :
    chunk_text_with_spans [] size overlap = [] := by
  simp [chunk_text_with_spans, chunkFuel]

theorem ChunkChain.ne_nil {text : List Char} {size overlap i : Nat}
    {cs : List (List Char × Nat × Nat)} (h : ChunkChain text size overlap i cs) : cs ≠ [] := by
  cases h <;> simp

theorem ChunkChain.head_start {text : List Char} {size overlap i : Nat}
    {cs : List (List Char × Nat × Nat)} (h : ChunkChain text size overlap i cs) :
    ∀ c, cs.head? = some c → c.2.1 = i := by
  cases h <;> intro c hc <;>
    simp only [List.head?_cons, Option.some.injEq] at hc <;> subst hc <;> rfl

theorem ChunkChain.getLast_end {text : List Char} {size overlap : Nat} :
    ∀ {i : Nat} {cs : List (List Char × Nat × Nat)}, ChunkChain text size overlap i cs →
      ∀ c, cs.getLast? = some c → c.2.2 = text.length := by
  intro i cs h
  induction h with
  | last i h₁ h₂ =>
    intro c hc
    simp only [List.getLast?_singleton, Option.some.injEq] at hc
    subst hc; rfl
  | step i rest h₁ h₂ h₃ ih =>
    intro c hc
    obtain ⟨d, ds, rfl⟩ := List.exists_cons_of_ne_nil h₃.ne_nil
    rw [List.getLast?_cons_cons] at hc
    exact ih c hc

theorem ChunkChain.get_facts {text : List Char} {size overlap : Nat} :
    ∀ {i : Nat} {cs : List (List Char × Nat × Nat)}, ChunkChain text size overlap i cs →
      ∀ k c, cs.get? k = some c →
        c.2.2 = min (c.2.1 + size) text.length ∧
        c.1 = (text.drop c.2.1).take (c.2.2 - c.2.1) := by
  intro i cs h
  induction h with
  | last i h₁ h₂ =>
    intro k c hc
    match k with
    | 0 =>
      simp only [List.get?_cons_zero, Option.some.injEq] at hc
      subst hc
      constructor
      · simp; omega
      · rfl
    | k + 1 => simp at hc
  | step i rest h₁ h₂ h₃ ih =>
    intro k c hc
    match k with
    | 0 =>
      simp only [List.get?_cons_zero, Option.some.injEq] at hc
      subst hc
      constructor
      · simp; omega
      · simp
    | k + 1 =>
      simp only [List.get?_cons_succ] at hc
      exact ih k c hc

theorem ChunkChain.link {text : List Char} {size overlap : Nat} :
    ∀ {i : Nat} {cs : List (List Char × Nat × Nat)}, ChunkChain text size overlap i cs →
      ∀ k c c', cs.get? k = some c → cs.get? (k + 1) = some c' →
        c'.2.1 = c.2.2 - overlap := by
  intro i cs h
  induction h with
  | last i h₁ h₂ =>
    intro k c c' hc hc'
    match k with
    | 0 => simp at hc'
    | k + 1 => simp at hc
  | step i rest h₁ h₂ h₃ ih =>
    intro k c c' hc hc'
    match k with
    | 0 =>
      simp only [List.get?_cons_zero, Option.some.injEq] at hc
      simp only [List.get?_cons_succ, List.get?_zero] at hc'
      subst hc
      simpa using h₃.head_start c' hc'
    | k + 1 =>
      simp only [List.get?_cons_succ] at hc hc'
      exact ih k c c' hc hc'

theorem ChunkChain.tail_flatten {text : List Char} {size overlap : Nat} (hso : overlap < size) :
    ∀ {i : Nat} {cs : List (List Char × Nat × Nat)}, ChunkChain text size overlap i cs →
      (cs.map (fun d => d.1.drop overlap)).flatten = text.drop (i + overlap) := by
  intro i cs h
  induction h with
  | last i h₁ h₂ =>
    have htake : (text.drop i).take (text.length - i) = text.drop i :=
      List.take_of_length_le (by simp)
    simp [htake, List.drop_drop, Nat.add_comm]
  | step i rest h₁ h₂ h₃ ih =>
    have hchunk : ((text.drop i).take size).drop overlap
        = (text.drop (i + overlap)).take (size - overlap) := by
      rw [List.drop_take, List.drop_drop, Nat.add_comm]
    have hrest : (rest.map (fun d => d.1.drop overlap)).flatten
        = text.drop (i + overlap + (size - overlap)) := by
      rw [ih]
      congr 1
      omega
    have hdrop : text.drop (i + overlap + (size - overlap))
        = (text.drop (i + overlap)).drop (size - overlap) := by
      rw [List.drop_drop]
    simp only [List.map_cons, List.flatten_cons, hchunk, hrest, hdrop,
      List.take_append_drop]

theorem ChunkChain.concat_eq {text : List Char} {size overlap : Nat} (hso : overlap < size) :
    ∀ {i : Nat} {cs : List (List Char × Nat × Nat)}, ChunkChain text size overlap i cs →
      chunkConcat overlap cs = text.drop i := by
  intro i cs h
  cases h with
  | last i h₁ h₂ =>
    have htake : (text.drop i).take (text.length - i) = text.drop i :=
      List.take_of_length_le (by simp)
    simp [chunkConcat, htake]
  | step i rest h₁ h₂ h₃ =>
    have hrest : (rest.map (fun d => d.1.drop overlap)).flatten = text.drop (i + size) := by
      rw [h₃.tail_flatten hso]
      congr 1
      omega
    have hdrop : text.drop (i + size) = (text.drop i).drop size := by
      rw [List.drop_drop, Nat.add_comm]
    simp only [chunkConcat, hrest, hdrop, List.take_append_drop]

/-- The behaviour claimed for `split` = `chunk_text_with_spans` at a given
text and configuration: empty text gives zero chunks, the first span starts
at 0, consecutive spans are linked by `start' = end - overlap`, every span
ends at `min (start + size) (length text)` and carries exactly that slice of
the text, the last span ends at the end of the text, and concatenating the
chunks minus the overlap reconstructs the text. -/
def ChunkSpec (text : List Char) (size overlap : Nat) : Prop :=
  (text = [] ↔ chunk_text_with_spans text size overlap = []) ∧
  (∀ c, (chunk_text_with_spans text size overlap).head? = some c → c.2.1 = 0) ∧
  (∀ k c c', (chunk_text_with_spans text size overlap).get? k = some c →
    (chunk_text_with_spans text size overlap).get? (k + 1) = some c' →
    c'.2.1 = c.2.2 - overlap) ∧
  (∀ k c, (chunk_text_with_spans text size overlap).get? k = some c →
    c.2.2 = min (c.2.1 + size) text.length ∧
    c.1 = (text.drop c.2.1).take (c.2.2 - c.2.1)) ∧
  (∀ c, (chunk_text_with_spans text size overlap).getLast? = some c → c.2.2 = text.length) ∧
  chunkConcat overlap (chunk_text_with_spans text size overlap) = text

theorem chunkSpec_of_overlap_lt (text : List Char) (size overlap : Nat) (hso : overlap < size) :
    ChunkSpec text size overlap := by
  by_cases hne : text = []
  · subst hne
    refine ⟨by simp [chunk_text_with_spans_nil], ?_, ?_, ?_, ?_, ?_⟩ <;>
      simp [chunk_text_with_spans_nil, chunkConcat]
  · have hchain := chunk_text_with_spans_chain text size overlap hso hne
    refine ⟨?_, hchain.head_start, hchain.link, hchain.get_facts, hchain.getLast_end, ?_⟩
    · constructor
      · intro h; exact absurd h hne
      · intro h; exact absurd h hchain.ne_nil
    · simpa using hchain.concat_eq hso

/-- C3 (code_bug): the claim says `chunk_text_with_spans` terminates for every
text, every `size > 0` and every `overlap ≥ 0`, including `overlap ≥ size`.
The code violates this: with `size = 1`, `overlap = 1` and the two-character
text `"ab"`, the window start is recomputed as `max(0, j - overlap) = 0` on
every iteration, so the loop never leaves `i = 0` and never terminates —
`chunkFuel` returns `none` for every amount of fuel. -/
theorem C3_chunk_loop_stalls :
    (∀ fuel, chunkFuel (['a', 'b'] : List Char) 1 1 fuel 0 = none) ∧
    ¬ ChunkTerminates (['a', 'b'] : List Char) 1 1 := by
  have hstall : ∀ fuel, chunkFuel (['a', 'b'] : List Char) 1 1 fuel 0 = none := by
    intro fuel
    induction fuel with
    | zero => rfl
    | succ fuel ih => simp [chunkFuel, ih]
  refine ⟨hstall, ?_⟩
  rintro ⟨fuel, hfuel⟩
  rw [hstall fuel] at hfuel
  simp at hfuel

theorem chunkFuel_succ_mid {text : List Char} {S O fuel i : Nat} (h2 : i + S < text.length) :
    chunkFuel text S O (fuel + 1) i =
      (chunkFuel text S O fuel (i + S - O)).map
        (fun rest => ((text.drop i).take S, (i, i + S)) :: rest) := by
  have h1 : i < text.length := by omega
  have hj : min (i + S) text.length = i + S := by omega
  have hne : ¬ text.length ≤ i + S := by omega
  simp only [chunkFuel, if_pos h1, hj, if_neg hne, Nat.add_sub_cancel_left]
  cases chunkFuel text S O fuel (i + S - O) <;> rfl

theorem chunkFuel_succ_last {text : List Char} {S O fuel i : Nat}
    (h1 : i < text.length) (h2 : text.length ≤ i + S) :
    chunkFuel text S O (fuel + 1) i
      = some [((text.drop i).take (text.length - i), (i, text.length))] := by
  have hj : min (i + S) text.length = text.length := by omega
  simp [chunkFuel, if_pos h1, hj, h2]

/-- The 3000-character file of the spec's chunking scenario. -/
def scenarioText : List Char := List.replicate 3000 'x'

theorem scenarioText_length : scenarioText.length = 3000 := by
  rw [scenarioText, List.length_replicate]

theorem chunk_scenario_spans :
    (chunk_text_with_spans scenarioText 1200 200).map Prod.snd
      = [(0, 1200), (1000, 2200), (2000, 3000)] := by
  have h3 : chunkFuel scenarioText 1200 200 2999 2000
      = some [((scenarioText.drop 2000).take (scenarioText.length - 2000),
               (2000, scenarioText.length))] := by
    rw [show (2999 : Nat) = 2998 + 1 from rfl]
    exact chunkFuel_succ_last (by rw [scenarioText_length]; omega)
      (by rw [scenarioText_length]; omega)
  have h2 : chunkFuel scenarioText 1200 200 3000 1000
      = some (((scenarioText.drop 1000).take 1200, (1000, 1000 + 1200))
          :: [((scenarioText.drop 2000).take (scenarioText.length - 2000),
               (2000, scenarioText.length))]) := by
    rw [show (3000 : Nat) = 2999 + 1 from rfl]
    rw [chunkFuel_succ_mid (by rw [scenarioText_length]; omega)]
    norm_num [h3]
  have h1 : chunkFuel scenarioText 1200 200 (3000 + 1) 0
      = some (((scenarioText.drop 0).take 1200, (0, 0 + 1200))
          :: ((scenarioText.drop 1000).take 1200, (1000, 1000 + 1200))
          :: [((scenarioText.drop 2000).take (scenarioText.length - 2000),
               (2000, scenarioText.length))]) := by
    rw [chunkFuel_succ_mid (by rw [scenarioText_length]; omega)]
    norm_num [h2]
  unfold chunk_text_with_spans
  rw [scenarioText_length, h1]
  simp [scenarioText_length]

/-- C5 (confirmed): for `0 ≤ overlap < size`, `chunk_text_with_spans` emits
chunks in order (contiguous ordinals = list positions starting at 0) whose
spans start at 0, chain by `start' = end - overlap`, end at
`min (start + size) (length text)` with exactly that slice as text, whose last
span ends at `length text`, and whose overlap-trimmed concatenation
reconstructs the text; the empty text yields zero chunks; and the
`size = 1200`, `overlap = 200`, 3000-character scenario yields exactly the
spans `[0,1200)`, `[1000,2200)`, `[2000,3000)`. -/
theorem C5_chunk_spans_correct :
    (∀ (text : List Char) (size overlap : Nat), overlap < size → ChunkSpec text size overlap) ∧
    (chunk_text_with_spans scenarioText 1200 200).map Prod.snd
      = [(0, 1200), (1000, 2200), (2000, 3000)] :=
  ⟨fun text size overlap h => chunkSpec_of_overlap_lt text size overlap h, chunk_scenario_spans⟩

/-- Witness for C5: the general statement applied at text `"abc"`,
`size = 2`, `overlap = 1`, with the hypothesis `overlap < size` discharged
concretely. -/
theorem C5_chunk_spans_correct_witness :
    1 < 2 ∧ ChunkSpec (['a', 'b', 'c'] : List Char) 2 1 :=
  ⟨by decide, C5_chunk_spans_correct.1 (['a', 'b', 'c'] : List Char) 2 1 (by decide)⟩

/-! ### `_chroma_add_with_retries` (indexer.py)

    BATCH = initial_batch (default CHROMA_BATCH_SIZE = 64)
    i = 0; added = 0
    while i < n:
        j = min(i + BATCH, n)
        slice = ids[i:j] ...
        attempt = 0
        while True:
            try: col.add(slice...); added += (j - i); break
            except:
                attempt += 1
                if attempt <= max_retries:
                    wait = min(2 ** attempt, 8); sleep(wait)
                    if BATCH > 8: BATCH = max(8, BATCH // 2)
                    continue
                raise
        i = j
    return added

`col.add` is the external vector-store collaborator; its outcome is a
parameter `succeed : Nat → Bool` indexed by a global call counter. Each
attempted call is recorded as an `AddCall` holding the slice bounds actually
submitted and the value of the `BATCH` variable at submission time; back-off
sleeps are recorded separately. -/

structure AddCall where
  lo : Nat
  hi : Nat
  batchVar : Nat
  ok : Bool
deriving DecidableEq, Repr

inductive AddResult where
  /-- The loop returned normally with `added` chunks committed. -/
  | ok (added : Nat) (calls : List AddCall) (sleeps : List Nat)
  /-- The retry ceiling was exceeded and the exception propagated. -/
  | raised (calls : List AddCall) (sleeps : List Nat)
  /-- Fuel artefact: the outer loop made no progress (possible only for
  `BATCH = 0`, where the Python loop spins forever). -/
  | outOfFuel
deriving DecidableEq, Repr

/-- Inner `while True` retry loop for one slice, recursing structurally on
`remaining = max_retries - attempt` (a retry happens iff
`attempt + 1 <= max_retries`, i.e. iff `remaining >= 1`). Returns the next
global call counter, the (possibly halved) `BATCH` value, the attempted
calls, the back-off sleeps, and whether the slice was eventually
committed. -/
def sliceAttempts (succeed : Nat → Bool) (lo hi : Nat) :
    Nat → Nat → Nat → Nat → Nat × Nat × List AddCall × List Nat × Bool
  | 0, _, callIdx, batch =>
    if succeed callIdx then (callIdx + 1, batch, [⟨lo, hi, batch, true⟩], [], true)
    else (callIdx + 1, batch, [⟨lo, hi, batch, false⟩], [], false)
  | remaining + 1, attempt, callIdx, batch =>
    if succeed callIdx then (callIdx + 1, batch, [⟨lo, hi, batch, true⟩], [], true)
    else
      let wait := min (2 ^ (attempt + 1)) 8
      let batch' := if 8 < batch then max 8 (batch / 2) else batch
      let r := sliceAttempts succeed lo hi remaining (attempt + 1) (callIdx + 1) batch'
      (r.1, r.2.1, ⟨lo, hi, batch, false⟩ :: r.2.2.1, wait :: r.2.2.2.1, r.2.2.2.2)

/-- Outer slicing loop of `_chroma_add_with_retries`. -/
def addLoop (succeed : Nat → Bool) (maxRetries n : Nat) :
    Nat → Nat → Nat → Nat → Nat → AddResult
  | 0, i, _, _, added => if i < n then .outOfFuel else .ok added [] []
  | fuel + 1, i, batch, callIdx, added =>
    if i < n then
      let j := min (i + batch) n
      let r := sliceAttempts succeed i j maxRetries 0 callIdx batch
      if r.2.2.2.2 then
        match addLoop succeed maxRetries n fuel j r.2.1 r.1 (added + (j - i)) with
        | .ok a cs ss => .ok a (r.2.2.1 ++ cs) (r.2.2.2.1 ++ ss)
        | .raised cs ss => .raised (r.2.2.1 ++ cs) (r.2.2.2.1 ++ ss)
        | .outOfFuel => .outOfFuel
      else .raised r.2.2.1 r.2.2.2.1
    else .ok added [] []

/-- `_chroma_add_with_retries(col, ids, docs, embs, metas, ...)` for `n`
chunks: fuel `n + 1` outer iterations suffice whenever the initial batch
size is at least 1, since every committed slice advances `i`. -/
def _chroma_add_with_retries (succeed : Nat → Bool) (initialBatch maxRetries n : Nat) :
    AddResult :=
  addLoop succeed maxRetries n (n + 1) 0 initialBatch 0 0

/-- C7 (code_bug): run `_chroma_add_with_retries` on 64 chunks with the
default initial batch 64 and the store failing on the first two calls and
succeeding on the third.  The call completes with all 64 chunks committed
and no exception (the claim's scenario holds), and the back-off sleeps are
`min(2^attempt, 8) = 2, 4`; but every one of the three attempts submits the
identical slice `[0, 64)` — the halving of the `BATCH` variable
(64 → 32 → 16) never reaches the retried slice, contradicting the claim
(and the code's own comment "halve batch for next try of this slice"). -/
theorem C7_retry_resubmits_full_slice :
    _chroma_add_with_retries (fun c => c == 2) 64 3 64
      = .ok 64 [⟨0, 64, 64, false⟩, ⟨0, 64, 32, false⟩, ⟨0, 64, 16, true⟩] [2, 4] := by
  decide

/-! ### `Indexer.upsert_file` (indexer.py)

The per-path re-index operation. The embedding is single-threaded (the
per-file lock serialises the body, so one run is one atomic body execution);
the external collaborators are fields of `RagEnv`:

* `shouldIndex`/`stableCheck` — the results of `should_index`/`stable`;
* `statMtime` — `p.stat().st_mtime` (`none` models `FileNotFoundError`);
* `loadText` — the `load_text` extraction collaborator;
* `addSucceeds` — per-call outcome of `col.add` inside
  `_chroma_add_with_retries`.

The vector-store/FTS delete and insert calls and the read-back verification
are modelled as always succeeding (their failures are logged and swallowed
by the source except for the ones no claim exercises); each performed store
write is recorded as a `StoreOp`. -/

structure RagEnv where
  shouldIndex : String → Bool
  stableCheck : String → Bool
  statMtime : String → Option Nat
  loadText : String → List Char
  addSucceeds : Nat → Bool
  chunkChars : Nat
  chunkOverlap : Nat
  batchSize : Nat

inductive StoreOp where
  /-- `col.delete(where={"file_path": path})` -/
  | chromaDelete (path : String)
  /-- one `col.add` call, with the submitted slice bounds and outcome -/
  | chromaAdd (path : String) (lo hi : Nat) (ok : Bool)
  /-- `DELETE FROM chunks WHERE file_path = ?` -/
  | ftsDelete (path : String)
  /-- `INSERT INTO chunks(id,file_path,chunk_index,text) VALUES ...` -/
  | ftsInsert (path : String) (rows : Nat)
deriving DecidableEq, Repr

inductive UpsertOutcome where
  | skippedNotIndexable
  | skippedUnstable
  | skippedMissing
  | skippedUnchanged
  | deletedEmpty
  | done (added : Nat)
  | raised
  /-- the chunking loop (or a zero batch size) spins forever -/
  | stalled
deriving DecidableEq, Repr

/-- The in-memory `self.seen` table: path → last recorded mtime. -/
def seenGet (seen : List (String × Nat)) (path : String) : Option Nat :=
  (seen.find? (fun e => e.1 = path)).map (·.2)

/-- `self.seen[path] = mtime`. -/
def seenSet (seen : List (String × Nat)) (path : String) (mtime : Nat) : List (String × Nat) :=
  match seen with
  | [] => [(path, mtime)]
  | e :: rest => if e.1 = path then (path, mtime) :: rest else e :: seenSet rest path mtime

/-- Python whitespace for `str.strip()`: space, `\t`, `\n`, `\r`, `\x0b`, `\x0c`.
`not text.strip()` holds iff every character is whitespace. -/
def pyStripEmpty (text : List Char) : Bool :=
  text.all fun c =>
    c = ' ' || c = '\t' || c = '\n' || c = '\r' || c.toNat = 11 || c.toNat = 12

/-- `Indexer.upsert_file(path)`: returns the updated seen table, the store
writes performed in order, and the outcome. -/
def upsert_file (env : RagEnv) (seen : List (String × Nat)) (path : String) :
    List (String × Nat) × List StoreOp × UpsertOutcome :=
  if ¬ env.shouldIndex path then (seen, [], .skippedNotIndexable)
  else if ¬ env.stableCheck path then (seen, [], .skippedUnstable)
  else
    match env.statMtime path with
    | none => (seen, [], .skippedMissing)
    | some mtime =>
      -- with self.lock: prev = self.seen.get(path); self.seen[path] = mtime
      let prev := seenGet seen path
      let seen1 := seenSet seen path mtime
      if prev = some mtime then (seen1, [], .skippedUnchanged)
      else
        let text := env.loadText path
        if pyStripEmpty text then
          (seen1, [.chromaDelete path, .ftsDelete path], .deletedEmpty)
        else
          match chunkFuel text env.chunkChars env.chunkOverlap (text.length + 1) 0 with
          | none => (seen1, [], .stalled)
          | some chunksSpans =>
            let nChunks := chunksSpans.length
            -- embeddings / sha256 are external and do not touch the stores
            match _chroma_add_with_retries env.addSucceeds env.batchSize 3 nChunks with
            | .raised calls _ =>
              (seen1,
                .chromaDelete path :: calls.map (fun c => .chromaAdd path c.lo c.hi c.ok),
                .raised)
            | .outOfFuel => (seen1, [.chromaDelete path], .stalled)
            | .ok added calls _ =>
              (seen1,
                .chromaDelete path :: calls.map (fun c => .chromaAdd path c.lo c.hi c.ok)
                  ++ [.ftsDelete path, .ftsInsert path nChunks],
                .done added)

theorem seenGet_seenSet (seen : List (String × Nat)) (p : String) (m : Nat) :
    seenGet (seenSet seen p m) p = some m := by
  induction seen with
  | nil => simp [seenGet, seenSet, List.find?]
  | cons e rest ih =>
    by_cases he : e.1 = p
    · simp [seenGet, seenSet, he, List.find?]
    · simp only [seenSet, if_neg he]
      simpa [seenGet, List.find?, he] using ih

theorem seenSet_of_seenGet (seen : List (String × Nat)) (p : String) (m : Nat)
    (h : seenGet seen p = some m) : seenSet seen p m = seen := by
  induction seen with
  | nil => simp [seenGet] at h
  | cons e rest ih =>
    by_cases he : e.1 = p
    · simp only [seenGet, List.find?, he] at h
      simp only [seenSet, if_pos he]
      obtain ⟨e1, e2⟩ := e
      simp_all
    · simp only [seenGet, List.find?, he] at h
      simp only [seenSet, if_neg he]
      rw [ih (by simpa [seenGet, he] using h)]

/-- In every branch that survives the indexable/stable/stat gates, the very
first thing `upsert_file` does under the lock is `self.seen[path] = mtime` —
the returned seen table is `seenSet seen path mtime` no matter how the rest
of the body goes. -/
theorem upsert_file_seen (env : RagEnv) (seen : List (String × Nat)) (path : String) (m : Nat)
    (h1 : env.shouldIndex path) (h2 : env.stableCheck path)
    (h3 : env.statMtime path = some m) :
    (upsert_file env seen path).1 = seenSet seen path m := by
  unfold upsert_file
  rw [h3]
  simp only [h1, h2, not_true_eq_false, if_false]
  by_cases hprev : seenGet seen path = some m
  · simp [hprev]
  · simp only [hprev, if_false]
    by_cases hstrip : pyStripEmpty (env.loadText path)
    · simp [hstrip]
    · simp only [hstrip, Bool.false_eq_true, if_false]
      split
      · rfl
      · split <;> rfl

/-- C2 (corrected, amended form): for every stable indexable path with a
current mtime, `upsert_file` records the new mtime in the seen table *before*
extraction, embedding and the store writes, so afterwards — whatever the
outcome, including a raised batch-upsert failure — the seen entry holds the
new mtime. -/
theorem C2_amended_seen_recorded_early (env : RagEnv) (seen : List (String × Nat))
    (path : String) (m : Nat)
    (h1 : env.shouldIndex path) (h2 : env.stableCheck path)
    (h3 : env.statMtime path = some m) :
    (upsert_file env seen path).1 = seenSet seen path m ∧
    seenGet (upsert_file env seen path).1 path = some m := by
  have h := upsert_file_seen env seen path m h1 h2 h3
  exact ⟨h, by rw [h]; exact seenGet_seenSet seen path m⟩

/-- Environment of the C2 counterexample: an indexable, stable file whose
mtime moved from 1 to 2, whose extracted text is non-empty, and whose
vector store rejects every `col.add` call, so the batch upserter exceeds its
retry ceiling and raises. -/
def envAddFails : RagEnv where
  shouldIndex := fun _ => true
  stableCheck := fun _ => true
  statMtime := fun _ => some 2
  loadText := fun _ => "hello world".data
  addSucceeds := fun _ => false
  chunkChars := 5
  chunkOverlap := 2
  batchSize := 64

/-- C2 (counterexample): with the seen table holding mtime 1 for the path
and the new mtime 2, the upsert raises out of the batch upserter — yet the
seen entry is *not* left unchanged: it now records the new mtime 2, so the
next scan will skip, not retry. -/
theorem C2_counterexample_seen_changed_on_failure :
    (upsert_file envAddFails [("/docs/a.txt", 1)] "/docs/a.txt").2.2 = .raised ∧
    seenGet [("/docs/a.txt", 1)] "/docs/a.txt" = some 1 ∧
    seenGet (upsert_file envAddFails [("/docs/a.txt", 1)] "/docs/a.txt").1 "/docs/a.txt"
      = some 2 := by
  decide

/-- Witness for C2's amended theorem at the concrete failing environment. -/
theorem C2_amended_seen_recorded_early_witness :
    (envAddFails.shouldIndex "/docs/a.txt" ∧ envAddFails.stableCheck "/docs/a.txt" ∧
      envAddFails.statMtime "/docs/a.txt" = some 2) ∧
    ((upsert_file envAddFails [("/docs/a.txt", 1)] "/docs/a.txt").1
        = seenSet [("/docs/a.txt", 1)] "/docs/a.txt" 2 ∧
      seenGet (upsert_file envAddFails [("/docs/a.txt", 1)] "/docs/a.txt").1 "/docs/a.txt"
        = some 2) :=
  ⟨⟨rfl, rfl, rfl⟩,
    C2_amended_seen_recorded_early envAddFails [("/docs/a.txt", 1)] "/docs/a.txt" 2
      rfl rfl rfl⟩

/-- C4 (corrected, amended form): on a stable indexable path whose mtime
changed and whose extracted text is empty or whitespace-only, `upsert_file`
deletes the path's entries from both the vector store and the FTS store and
stops — but the seen table still contains the path, now mapped to the new
mtime (only `delete_file` removes it). -/
theorem C4_amended_empty_text_deletes_both_stores (env : RagEnv)
    (seen : List (String × Nat)) (path : String) (m : Nat)
    (h1 : env.shouldIndex path) (h2 : env.stableCheck path)
    (h3 : env.statMtime path = some m)
    (h4 : seenGet seen path ≠ some m)
    (h5 : pyStripEmpty (env.loadText path)) :
    upsert_file env seen path
      = (seenSet seen path m, [.chromaDelete path, .ftsDelete path], .deletedEmpty) ∧
    seenGet (seenSet seen path m) path = some m := by
  constructor
  · unfold upsert_file
    rw [h3]
    simp [h1, h2, h4, h5]
  · exact seenGet_seenSet seen path m

/-- Environment of the C4 counterexample: the file became whitespace-only. -/
def envEmptyText : RagEnv where
  shouldIndex := fun _ => true
  stableCheck := fun _ => true
  statMtime := fun _ => some 2
  loadText := fun _ => "  \n".data
  addSucceeds := fun _ => true
  chunkChars := 5
  chunkOverlap := 2
  batchSize := 64

/-- C4 (counterexample): emptying the file does delete its entries from both
stores, but afterwards the in-memory seen table *does* contain the path
(mapped to the new mtime), contrary to the claim. -/
theorem C4_counterexample_seen_keeps_path :
    (upsert_file envEmptyText [("/docs/a.txt", 1)] "/docs/a.txt").2.1
      = [.chromaDelete "/docs/a.txt", .ftsDelete "/docs/a.txt"] ∧
    (upsert_file envEmptyText [("/docs/a.txt", 1)] "/docs/a.txt").2.2 = .deletedEmpty ∧
    seenGet (upsert_file envEmptyText [("/docs/a.txt", 1)] "/docs/a.txt").1 "/docs/a.txt"
      = some 2 := by
  decide

/-- Witness for C4's amended theorem at the concrete whitespace-file
environment. -/
theorem C4_amended_empty_text_witness :
    (envEmptyText.shouldIndex "/docs/a.txt" ∧ envEmptyText.stableCheck "/docs/a.txt" ∧
      envEmptyText.statMtime "/docs/a.txt" = some 2 ∧
      seenGet [("/docs/a.txt", 1)] "/docs/a.txt" ≠ some 2 ∧
      pyStripEmpty (envEmptyText.loadText "/docs/a.txt")) ∧
    (upsert_file envEmptyText [("/docs/a.txt", 1)] "/docs/a.txt"
        = (seenSet [("/docs/a.txt", 1)] "/docs/a.txt" 2,
           [.chromaDelete "/docs/a.txt", .ftsDelete "/docs/a.txt"], .deletedEmpty) ∧
      seenGet (seenSet [("/docs/a.txt", 1)] "/docs/a.txt" 2) "/docs/a.txt" = some 2) :=
  ⟨⟨rfl, rfl, rfl, by decide, by decide⟩,
    C4_amended_empty_text_deletes_both_stores envEmptyText [("/docs/a.txt", 1)]
      "/docs/a.txt" 2 rfl rfl rfl (by decide) (by decide)⟩

/-- C6 (confirmed): calling `upsert_file` twice in a row on a stable,
indexable file whose mtime did not change between the calls makes the second
call hit the unchanged-mtime check: it performs zero writes to the vector
store and zero writes to the FTS store, and leaves the seen table as the
first call left it. -/
theorem C6_second_upsert_writes_nothing (env : RagEnv) (seen : List (String × Nat))
    (path : String) (m : Nat)
    (h1 : env.shouldIndex path) (h2 : env.stableCheck path)
    (h3 : env.statMtime path = some m) :
    (upsert_file env (upsert_file env seen path).1 path).2.1 = [] ∧
    (upsert_file env (upsert_file env seen path).1 path).2.2 = .skippedUnchanged ∧
    (upsert_file env (upsert_file env seen path).1 path).1 = (upsert_file env seen path).1 := by
  have hseen : seenGet (upsert_file env seen path).1 path = some m := by
    rw [upsert_file_seen env seen path m h1 h2 h3]
    exact seenGet_seenSet seen path m
  have hset : seenSet (upsert_file env seen path).1 path m = (upsert_file env seen path).1 :=
    seenSet_of_seenGet _ _ _ hseen
  have key : ∀ s1, seenGet s1 path = some m →
      upsert_file env s1 path = (seenSet s1 path m, [], .skippedUnchanged) := by
    intro s1 hs1
    unfold upsert_file
    rw [h3]
    simp [h1, h2, hs1]
  have k2 := key _ hseen
  rw [hset] at k2
  exact ⟨by rw [k2], by rw [k2], by rw [k2]⟩

/-! ### `token_len`, `_pack_numbered_chat`, `_pack_numbered_prompt` (rag_proxy.py)

`token_len(messages)` estimates tokens: with a tokenizer it defers to the
external collaborator; without one it falls back to
`len("".join(f"[{role.upper()}]\n{content}\n")) // 4`. The packers are
therefore parametrised over an arbitrary estimator `tokLen`; the concrete
fallback `token_len_chars` embeds the character-based branch.

Both packers run the same trim loop:

    while token_len(msgs) > (max_context - max_completion_tokens - 64) \
            and len(context_block) > 200:
        context_block = context_block[:int(len(context_block) * 0.8)]
        ... rebuild the message from the shorter block ...

`int(len * 0.8)` is modelled as `len * 4 / 5` (Nat division; the float
product only ever truncates to this value for the lengths involved, and no
claim depends on the exact trim amount). The budget
`max_context - max_completion_tokens - 64` is an `Int`, since the Python
subtraction can go negative. -/

structure ChatMsg where
  role : List Char
  content : List Char
deriving DecidableEq, Repr

/-- The `text` accumulated by `token_len`: `f"[{role.upper()}]\n{content}\n"`
per message. -/
def tokenTextOf (messages : List ChatMsg) : List Char :=
  messages.foldl
    (fun acc m =>
      acc ++ ('[' :: m.role.map Char.toUpper) ++ (']' :: '\n' :: m.content) ++ ['\n'])
    []

/-- `token_len` with no tokenizer available: `len(text) // 4`. -/
def token_len_chars (messages : List ChatMsg) : Nat :=
  (tokenTextOf messages).length / 4

/-- The user-message content built by `_pack_numbered_chat`. -/
def chatPreface (userQuery contextBlock : List Char) : List Char :=
  "Context blocks (cite with [n] when used):\n\n".data ++ contextBlock ++
  "\n\nNow answer the user\x27s question using ONLY the context above. Cite sources inline as [n].\n\nUser question: ".data
    ++ userQuery

/-- The `msgs` list of `_pack_numbered_chat`. -/
def renderChatMsgs (systemPrompt userQuery contextBlock : List Char) : List ChatMsg :=
  [⟨"system".data, systemPrompt⟩, ⟨"user".data, chatPreface userQuery contextBlock⟩]

/-- The flat prompt built by `_pack_numbered_prompt`. -/
def promptText (systemPrompt userQuery contextBlock : List Char) : List Char :=
  "[SYSTEM]\n".data ++ systemPrompt ++
  "\n\nContext blocks (cite with [n] when used):\n\n".data ++ contextBlock ++
  "\n\n[USER]\n".data ++ userQuery ++
  "\n\nAnswer using ONLY the context above and cite sources inline as [n].".data

/-- The `msgs` list that `_pack_numbered_prompt` measures with `token_len`. -/
def renderPromptMsgs (systemPrompt userQuery contextBlock : List Char) : List ChatMsg :=
  [⟨"system".data, systemPrompt⟩, ⟨"user".data, promptText systemPrompt userQuery contextBlock⟩]

/-- The shared trim loop: keep cutting the context block to 80% while the
rendered message exceeds the budget and the block is longer than 200
characters. Returns the final context block. -/
def trimContext (tokLen : List ChatMsg → Nat) (render : List Char → List ChatMsg)
    (bound : Int) (contextBlock : List Char) : List Char :=
  if h : bound < (tokLen (render contextBlock) : Int) ∧ 200 < contextBlock.length then
    trimContext tokLen render bound (contextBlock.take (contextBlock.length * 4 / 5))
  else contextBlock
  termination_by contextBlock.length
  decreasing_by
    simp only [List.length_take]
    omega

/-- `_pack_numbered_chat(user_query, context_block, max_context,
max_completion_tokens)` under token estimator `tokLen` and system prompt
`systemPrompt` (the module-level `SYSTEM_PROMPT`). -/
def _pack_numbered_chat (tokLen : List ChatMsg → Nat)
    (systemPrompt userQuery contextBlock : List Char)
    (maxContext maxCompletionTokens : Int) : List ChatMsg :=
  renderChatMsgs systemPrompt userQuery
    (trimContext tokLen (renderChatMsgs systemPrompt userQuery)
      (maxContext - maxCompletionTokens - 64) contextBlock)

/-- `_pack_numbered_prompt(...)`: same loop, returning the flat prompt. -/
def _pack_numbered_prompt (tokLen : List ChatMsg → Nat)
    (systemPrompt userQuery contextBlock : List Char)
    (maxContext maxCompletionTokens : Int) : List Char :=
  promptText systemPrompt userQuery
    (trimContext tokLen (renderPromptMsgs systemPrompt userQuery)
      (maxContext - maxCompletionTokens - 64) contextBlock)

/-- The trim loop stops only when the budget is met or the block is at the
200-character floor. -/
theorem trimContext_post (tokLen : List ChatMsg → Nat) (render : List Char → List ChatMsg)
    (bound : Int) :
    ∀ (n : Nat) (cb : List Char), cb.length ≤ n →
      (tokLen (render (trimContext tokLen render bound cb)) : Int) ≤ bound ∨
      (trimContext tokLen render bound cb).length ≤ 200 := by
  intro n
  induction n with
  | zero =>
    intro cb hcb
    rw [trimContext]
    have hlen : cb.length = 0 := by omega
    have : ¬ (bound < (tokLen (render cb) : Int) ∧ 200 < cb.length) := by omega
    rw [dif_neg this]
    omega
  | succ n ih =>
    intro cb hcb
    rw [trimContext]
    by_cases h : bound < (tokLen (render cb) : Int) ∧ 200 < cb.length
    · rw [dif_pos h]
      apply ih
      simp only [List.length_take]
      omega
    · rw [dif_neg h]
      omega

/-- C1 (corrected, amended form): for every token estimator, system prompt,
user query, context block and budgets, both packers return a message built
from a trimmed context block such that either the estimated token length is
within `max_context - max_completion_tokens - 64`, or the block has been
trimmed to at most 200 characters (the loop's floor) — in the latter case
the returned message may exceed the budget. -/
theorem C1_amended_pack_budget_or_floor (tokLen : List ChatMsg → Nat)
    (systemPrompt userQuery contextBlock : List Char) (maxContext maxCompletionTokens : Int) :
    (∃ cb, _pack_numbered_chat tokLen systemPrompt userQuery contextBlock
        maxContext maxCompletionTokens = renderChatMsgs systemPrompt userQuery cb ∧
      ((tokLen (renderChatMsgs systemPrompt userQuery cb) : Int)
          ≤ maxContext - maxCompletionTokens - 64 ∨ cb.length ≤ 200)) ∧
    (∃ cb, _pack_numbered_prompt tokLen systemPrompt userQuery contextBlock
        maxContext maxCompletionTokens = promptText systemPrompt userQuery cb ∧
      ((tokLen (renderPromptMsgs systemPrompt userQuery cb) : Int)
          ≤ maxContext - maxCompletionTokens - 64 ∨ cb.length ≤ 200)) :=
  ⟨⟨trimContext tokLen (renderChatMsgs systemPrompt userQuery)
      (maxContext - maxCompletionTokens - 64) contextBlock,
    rfl,
    trimContext_post tokLen (renderChatMsgs systemPrompt userQuery)
      (maxContext - maxCompletionTokens - 64) contextBlock.length contextBlock le_rfl⟩,
   ⟨trimContext tokLen (renderPromptMsgs systemPrompt userQuery)
      (maxContext - maxCompletionTokens - 64) contextBlock,
    rfl,
    trimContext_post tokLen (renderPromptMsgs systemPrompt userQuery)
      (maxContext - maxCompletionTokens - 64) contextBlock.length contextBlock le_rfl⟩⟩

/-- C1 (counterexample): with the character-fallback estimator, empty system
prompt, query and context block, and budgets `max_context = 10`,
`max_completion_tokens = 5`, the trim loop exits immediately (the block is
already ≤ 200 characters) and both packers return a message whose estimated
token length exceeds `max_context - max_completion_tokens = 5` — the fixed
packing preface alone is far larger than the budget. -/
theorem trimContext_nil (tokLen : List ChatMsg → Nat) (render : List Char → List ChatMsg)
    (bound : Int) : trimContext tokLen render bound [] = [] := by
  rw [trimContext]
  simp

set_option maxRecDepth 4000 in
theorem C1_counterexample_pack_exceeds_budget :
    (10 : Int) - 5
      < (token_len_chars (_pack_numbered_chat token_len_chars [] [] [] 10 5) : Int) ∧
    (10 : Int) - 5
      < (token_len_chars
          [⟨"system".data, []⟩,
           ⟨"user".data, _pack_numbered_prompt token_len_chars [] [] [] 10 5⟩] : Int) := by
  simp only [_pack_numbered_chat, _pack_numbered_prompt, trimContext_nil]
  constructor <;> (rw [show (10 : Int) - 5 = ((5 : Nat) : Int) from rfl]; rw [Int.ofNat_lt]) <;>
    decide

/-! ### `CITE_RE` and `extract_used_citations` (rag_proxy.py)

    CITE_RE = re.compile(r"\[(\d{1,3})\]")

    def extract_used_citations(text, citations):
        index = {c["n"]: c for c in citations}
        used_order, seen = [], set()
        for m in CITE_RE.finditer(text or ""):
            n = int(m.group(1))
            if n in index and n not in seen:
                used_order.append(index[n]); seen.add(n)
        return used_order

`finditer` scans left to right: at each position it tries to match
`[` + 1–3 digits + `]` (four or more digits make every digit-count
alternative fail, so no match), yields the match and resumes after it,
otherwise advances one character. `\d` is modelled as the ASCII
`Char.isDigit` (the claims only involve ASCII digits). -/

/-- A `citations` entry. The source passes dicts with keys `n`, `file_path`,
`chunk_index`, `title`, `doc_sha256`, `similarity`; `extract_used_citations`
reads only `n` and treats the rest as opaque payload, so the float
`similarity` (out of scope) is omitted from the model. -/
structure Citation where
  n : Nat
  file_path : String
  chunk_index : Option Nat
  title : String
  doc_sha256 : Option String
deriving DecidableEq, Repr

/-- ASCII decimal digit (`\d` over the inputs the claims involve). -/
def isDigitChar (c : Char) : Bool :=
  48 ≤ c.toNat && c.toNat ≤ 57

/-- `int(m.group(1))` for 1–3 ASCII digits. -/
def digitsToNat (ds : List Char) : Nat :=
  ds.foldl (fun a c => a * 10 + (c.toNat - 48)) 0

/-- Try to match `CITE_RE` at the head of `cs`; on success return the
captured number and the length of the whole match. -/
def citeHere (cs : List Char) : Option (Nat × Nat) :=
  match cs with
  | '[' :: rest =>
    let ds := rest.takeWhile isDigitChar
    if 1 ≤ ds.length ∧ ds.length ≤ 3 then
      match rest.drop ds.length with
      | ']' :: _ => some (digitsToNat ds, ds.length + 2)
      | _ => none
    else none
  | _ => none

/-- `CITE_RE.finditer`: every match consumes at least 3 characters, so
`fuel = length` steps always suffice. -/
def scanFuel : Nat → List Char → List Nat
  | 0, _ => []
  | _ + 1, [] => []
  | fuel + 1, c :: cs =>
    match citeHere (c :: cs) with
    | some (n, len) => n :: scanFuel fuel ((c :: cs).drop len)
    | none => scanFuel fuel cs

/-- The captured numbers of `CITE_RE.finditer(text)`, in match order. -/
def scanCites (text : List Char) : List Nat :=
  scanFuel text.length text

/-- `index[n]` for `index = {c["n"]: c for c in citations}`: the dict
comprehension lets a later entry with the same `n` overwrite an earlier
one, so lookup returns the last matching entry. -/
def citeIndex (citations : List Citation) (k : Nat) : Option Citation :=
  (citations.filter (fun c => c.n == k)).getLast?

/-- The `for m in finditer` loop body of `extract_used_citations`. -/
def extractGo (citations : List Citation) : List Nat → List Nat → List Citation
  | [], _ => []
  | n :: ms, seen =>
    match citeIndex citations n with
    | some c =>
      if n ∈ seen then extractGo citations ms seen
      else c :: extractGo citations ms (n :: seen)
    | none => extractGo citations ms seen

def extract_used_citations (text : List Char) (citations : List Citation) : List Citation :=
  extractGo citations (scanCites text) []

/-- First-occurrence deduplication (the `seen` set of the source). -/
def firstDedupAux (seen : List Nat) : List Nat → List Nat
  | [] => []
  | n :: ms => if n ∈ seen then firstDedupAux seen ms else n :: firstDedupAux (n :: seen) ms

def firstDedup (ms : List Nat) : List Nat :=
  firstDedupAux [] ms

theorem digitsToNat_aux_lt (ds : List Char) :
    ∀ a, (∀ c ∈ ds, isDigitChar c) →
      ds.foldl (fun a c => a * 10 + (c.toNat - 48)) a < (a + 1) * 10 ^ ds.length := by
  induction ds with
  | nil => intro a _; simp only [List.foldl_nil, List.length_nil, pow_zero, mul_one]; omega
  | cons c ds ih =>
    intro a hd
    have hc : isDigitChar c := hd c (List.mem_cons_self c ds)
    have hc9 : c.toNat - 48 ≤ 9 := by
      simp only [isDigitChar, Bool.and_eq_true, decide_eq_true_eq] at hc
      omega
    have step := ih (a * 10 + (c.toNat - 48)) (fun x hx => hd x (List.mem_cons_of_mem c hx))
    calc (c :: ds).foldl (fun a c => a * 10 + (c.toNat - 48)) a
        = ds.foldl (fun a c => a * 10 + (c.toNat - 48)) (a * 10 + (c.toNat - 48)) := rfl
      _ < (a * 10 + (c.toNat - 48) + 1) * 10 ^ ds.length := step
      _ ≤ ((a + 1) * 10) * 10 ^ ds.length := by
          apply Nat.mul_le_mul_right
          omega
      _ = (a + 1) * 10 ^ (c :: ds).length := by
          rw [List.length_cons, pow_succ]
          ring

theorem digitsToNat_lt (ds : List Char) (hd : ∀ c ∈ ds, isDigitChar c) :
    digitsToNat ds < 10 ^ ds.length := by
  simpa using digitsToNat_aux_lt ds 0 hd

theorem citeHere_bounds {cs : List Char} {v len : Nat} (h : citeHere cs = some (v, len)) :
    v ≤ 999 ∧ 3 ≤ len := by
  unfold citeHere at h
  split at h
  · rename_i rest
    dsimp only at h
    split at h
    · rename_i hlen
      split at h
      · simp only [Option.some.injEq, Prod.mk.injEq] at h
        obtain ⟨hv, hlen2⟩ := h
        have hdig : ∀ x ∈ rest.takeWhile isDigitChar, isDigitChar x :=
          fun x hx => List.mem_takeWhile_imp hx
        have hlt := digitsToNat_lt _ hdig
        have hpow : 10 ^ (rest.takeWhile isDigitChar).length ≤ 1000 := by
          calc 10 ^ (rest.takeWhile isDigitChar).length
              ≤ 10 ^ 3 := Nat.pow_le_pow_right (by omega) hlen.2
            _ = 1000 := by norm_num
        omega
      · exact absurd h (by simp)
    · exact absurd h (by simp)
  · exact absurd h (by simp)

theorem scanFuel_le_999 : ∀ (fuel : Nat) (cs : List Char) (n : Nat),
    n ∈ scanFuel fuel cs → n ≤ 999 := by
  intro fuel
  induction fuel with
  | zero => intro cs n h; simp [scanFuel] at h
  | succ fuel ih =>
    intro cs n h
    match cs with
    | [] => simp [scanFuel] at h
    | c :: cs =>
      simp only [scanFuel] at h
      cases hc : citeHere (c :: cs) with
      | none =>
        rw [hc] at h
        exact ih cs n h
      | some p =>
        rw [hc] at h
        obtain ⟨v, len⟩ := p
        simp only [List.mem_cons] at h
        cases h with
        | inl hv => exact hv ▸ (citeHere_bounds hc).1
        | inr hrest => exact ih _ n hrest

theorem scanCites_le_999 (text : List Char) : ∀ n ∈ scanCites text, n ≤ 999 :=
  fun n h => scanFuel_le_999 text.length text n h

theorem citeIndex_mem {citations : List Citation} {k : Nat} {c : Citation}
    (h : citeIndex citations k = some c) : c ∈ citations ∧ c.n = k := by
  unfold citeIndex at h
  have hmem : c ∈ citations.filter (fun c => c.n == k) := by
    cases hl : (citations.filter (fun c => c.n == k)).getLast? with
    | none => rw [hl] at h; simp at h
    | some d =>
      rw [hl] at h
      obtain rfl : d = c := by simpa using h
      exact List.mem_of_mem_getLast? hl
  rw [List.mem_filter] at hmem
  exact ⟨hmem.1, by simpa using hmem.2⟩

theorem citeIndex_eq_none {citations : List Citation} {k : Nat}
    (h : ∀ c ∈ citations, c.n ≠ k) : citeIndex citations k = none := by
  unfold citeIndex
  have : citations.filter (fun c => c.n == k) = [] := by
    rw [List.filter_eq_nil_iff]
    intro c hc
    simpa using h c hc
  rw [this]
  rfl

theorem citeIndex_eq_some {citations : List Citation} {c : Citation}
    (hn : (citations.map Citation.n).Nodup) (hc : c ∈ citations) :
    citeIndex citations c.n = some c := by
  induction citations with
  | nil => cases hc
  | cons d rest ih =>
    rw [List.map_cons, List.nodup_cons] at hn
    rcases List.mem_cons.mp hc with rfl | hcr
    · have hrest : rest.filter (fun e => e.n == c.n) = [] := by
        rw [List.filter_eq_nil_iff]
        intro e he
        have : e.n ∈ rest.map Citation.n := List.mem_map_of_mem Citation.n he
        simp only [beq_iff_eq]
        intro heq
        exact hn.1 (heq ▸ this)
      unfold citeIndex
      rw [List.filter_cons, if_pos (by simp), hrest]
      rfl
    · have hne : ¬ (d.n == c.n) = true := by
        have : c.n ∈ rest.map Citation.n := List.mem_map_of_mem Citation.n hcr
        simp only [beq_iff_eq]
        intro heq
        exact hn.1 (heq ▸ this)
      unfold citeIndex
      rw [List.filter_cons, if_neg hne]
      exact ih hn.2 hcr

theorem citeIndex_perm {citations₂ citations : List Citation}
    (hp : citations₂.Perm citations) (hn : (citations.map Citation.n).Nodup) :
    ∀ k, citeIndex citations₂ k = citeIndex citations k := by
  intro k
  have hn₂ : (citations₂.map Citation.n).Nodup := ((hp.map Citation.n).nodup_iff).mpr hn
  cases h : citeIndex citations k with
  | some c =>
    obtain ⟨hmem, hk⟩ := citeIndex_mem h
    have : citeIndex citations₂ c.n = some c :=
      citeIndex_eq_some hn₂ (hp.mem_iff.mpr hmem)
    rwa [hk] at this
  | none =>
    apply citeIndex_eq_none
    intro c hc heq
    have : citeIndex citations c.n = some c := citeIndex_eq_some hn (hp.mem_iff.mp hc)
    rw [heq, h] at this
    cases this

theorem extractGo_congr {citations₂ citations : List Citation}
    (h : ∀ k, citeIndex citations₂ k = citeIndex citations k) :
    ∀ (ms seen : List Nat), extractGo citations₂ ms seen = extractGo citations ms seen := by
  intro ms
  induction ms with
  | nil => intro seen; rfl
  | cons n ms ih =>
    intro seen
    simp only [extractGo, h n]
    cases citeIndex citations n with
    | none => exact ih seen
    | some c =>
      by_cases hseen : n ∈ seen
      · simp only [if_pos hseen]
        exact ih seen
      · simp only [if_neg hseen]
        rw [ih (n :: seen)]

theorem extractGo_eq_dedup (citations : List Citation) :
    ∀ (ms seen : List Nat),
      extractGo citations ms seen
        = (firstDedupAux seen (ms.filter (fun k => (citeIndex citations k).isSome))).filterMap
            (citeIndex citations) := by
  intro ms
  induction ms with
  | nil => intro seen; rfl
  | cons n ms ih =>
    intro seen
    cases hidx : citeIndex citations n with
    | none =>
      simp only [extractGo, hidx, List.filter_cons, Option.isSome_none,
        Bool.false_eq_true, if_false]
      exact ih seen
    | some c =>
      simp only [extractGo, hidx, List.filter_cons, Option.isSome_some, if_true]
      by_cases hseen : n ∈ seen
      · simp only [if_pos hseen, firstDedupAux, ih seen]
      · simp only [if_neg hseen, firstDedupAux, List.filterMap_cons, hidx, ih (n :: seen)]

theorem extractGo_mem {citations : List Citation} {c : Citation} :
    ∀ {ms seen : List Nat}, c ∈ extractGo citations ms seen →
      ∃ k, k ∈ ms ∧ citeIndex citations k = some c := by
  intro ms
  induction ms with
  | nil => intro seen h; simp [extractGo] at h
  | cons n ms ih =>
    intro seen h
    cases hidx : citeIndex citations n with
    | none =>
      simp only [extractGo, hidx] at h
      obtain ⟨k, hk, hck⟩ := ih h
      exact ⟨k, List.mem_cons_of_mem n hk, hck⟩
    | some d =>
      simp only [extractGo, hidx] at h
      by_cases hseen : n ∈ seen
      · rw [if_pos hseen] at h
        obtain ⟨k, hk, hck⟩ := ih h
        exact ⟨k, List.mem_cons_of_mem n hk, hck⟩
      · rw [if_neg hseen] at h
        rcases List.mem_cons.mp h with rfl | hrest
        · exact ⟨n, List.mem_cons_self n ms, hidx⟩
        · obtain ⟨k, hk, hck⟩ := ih hrest
          exact ⟨k, List.mem_cons_of_mem n hk, hck⟩

/-- C8 (confirmed): for maps with pairwise-distinct citation numbers (the
shape `build_context_and_map` produces), `extract_used_citations` returns
exactly the map entries whose number occurs in the text as a `CITE_RE`
bracket marker, ordered by the marker's first occurrence in the text and
deduplicated, and the result does not depend on the order of the map. -/
theorem C8_extract_used_citations_characterised (text : List Char) (citations : List Citation)
    (hn : (citations.map Citation.n).Nodup) :
    extract_used_citations text citations
      = (firstDedup ((scanCites text).filter
          (fun k => (citeIndex citations k).isSome))).filterMap (citeIndex citations) ∧
    ∀ citations₂, citations₂.Perm citations →
      extract_used_citations text citations₂ = extract_used_citations text citations := by
  constructor
  · exact extractGo_eq_dedup citations (scanCites text) []
  · intro citations₂ hp
    exact extractGo_congr (citeIndex_perm hp hn) (scanCites text) []

/-- The spec scenario's output text: it cites `[2]`, then `[5]`, then `[2]`
again. -/
def citeText5 : List Char :=
  "As [2] shows and [5] confirms; see [2] again.".data

/-- The spec scenario's 5-entry citation map. -/
def citeMap5 : List Citation :=
  [⟨1, "a.txt", some 0, "a.txt", none⟩, ⟨2, "b.txt", some 1, "b.txt", none⟩,
   ⟨3, "c.txt", some 2, "c.txt", none⟩, ⟨4, "d.txt", some 3, "d.txt", none⟩,
   ⟨5, "e.txt", some 4, "e.txt", none⟩]

/-- Witness for C8: the characterisation at the 5-entry scenario, plus the
concrete output — exactly the entries numbered 2 and 5, in text order. -/
theorem C8_extract_used_citations_witness :
    (citeMap5.map Citation.n).Nodup ∧
    (extract_used_citations citeText5 citeMap5
        = (firstDedup ((scanCites citeText5).filter
            (fun k => (citeIndex citeMap5 k).isSome))).filterMap (citeIndex citeMap5) ∧
      ∀ citations₂, citations₂.Perm citeMap5 →
        extract_used_citations citeText5 citations₂
          = extract_used_citations citeText5 citeMap5) ∧
    extract_used_citations citeText5 citeMap5
      = [⟨2, "b.txt", some 1, "b.txt", none⟩, ⟨5, "e.txt", some 4, "e.txt", none⟩] :=
  ⟨by decide, C8_extract_used_citations_characterised citeText5 citeMap5 (by decide), by decide⟩

/-- C10 (confirmed): `CITE_RE` only recognises one- to three-digit bracket
markers — every extracted entry has `n ≤ 999`, and `[1000]` is never
matched even when a map entry numbered 1000 exists; a recognised marker
with no map entry is silently skipped. -/
theorem C10_cite_marker_limits :
    (∀ (text : List Char) (citations : List Citation) (c : Citation),
        c ∈ extract_used_citations text citations → c.n ≤ 999) ∧
    extract_used_citations "see [1000] here".data
        [⟨1000, "big.txt", some 0, "big.txt", none⟩] = [] ∧
    extract_used_citations "uses [7] and [2] only".data
        [⟨2, "b.txt", some 1, "b.txt", none⟩]
      = [⟨2, "b.txt", some 1, "b.txt", none⟩] := by
  refine ⟨?_, by decide, by decide⟩
  intro text citations c hc
  obtain ⟨k, hk, hck⟩ := extractGo_mem hc
  have := (citeIndex_mem hck).2
  rw [this]
  exact scanCites_le_999 text k hk

/-- Witness for C10's universally quantified part at a concrete input. -/
theorem C10_cite_marker_limits_witness :
    (⟨2, "b.txt", some 1, "b.txt", none⟩ : Citation)
        ∈ extract_used_citations "[2]".data [⟨2, "b.txt", some 1, "b.txt", none⟩] ∧
    (⟨2, "b.txt", some 1, "b.txt", none⟩ : Citation).n ≤ 999 :=
  ⟨by decide, C10_cite_marker_limits.1 "[2]".data [⟨2, "b.txt", some 1, "b.txt", none⟩]
    ⟨2, "b.txt", some 1, "b.txt", none⟩ (by decide)⟩

/-! ### `/search` with `file_contains` widening (rag_server.py)

    results = retriever.search(query, top_k, where=where)
    if file_contains:
        needle = file_contains.lower()
        filt = [r for r in results if needle in metadata.file_path.lower()]
        if len(filt) < top_k:
            widened = retriever.search(query, top_k*4, where=where)
            seen = set(x["id"] for x in filt)
            for r in widened:
                if needle in fp and r["id"] not in seen:
                    filt.append(r); seen.add(r["id"])
                    if len(filt) >= top_k: break
        results = filt
    return results[:top_k]

`Retriever.search(query, k)` asks the external vector store for
`n_results = max(1, k)` nearest neighbours; the store is modelled as a
function from that count to the result list. A result's metadata is
narrowed to the only field this code reads, `file_path` (`none` models a
missing field, read back as `""`); the float `distance`/`similarity` fields
are inert here and omitted. -/

structure SearchResult where
  id : String
  chunk_text : String
  file_path : Option String
deriving DecidableEq, Repr

/-- `str.lower()` (ASCII; the claims only involve ASCII paths). -/
def lowerStr (s : String) : String :=
  ⟨s.data.map Char.toLower⟩

/-- Python's substring containment `needle in hay`. -/
def pyInStr (needle hay : String) : Bool :=
  decide (needle.data <:+: hay.data)

/-- `Retriever.search(query, k)`: `col.query(..., n_results=max(1, k))`. -/
def retriever_search (store : Nat → List SearchResult) (k : Nat) : List SearchResult :=
  store (max 1 k)

/-- The post-hoc filter predicate, with `nd` the already-lowered needle. -/
def fcHit (nd : String) (r : SearchResult) : Bool :=
  pyInStr nd (lowerStr (r.file_path.getD ""))

/-- The widening `for r in widened` loop: append matching, unseen-id results
until `top_k` results are collected or the widened pool is exhausted. -/
def widenLoop (nd : String) (k : Nat) :
    List SearchResult → List SearchResult → List String → List SearchResult
  | [], filt, _ => filt
  | r :: ws, filt, seen =>
    if fcHit nd r ∧ r.id ∉ seen then
      if k ≤ (filt ++ [r]).length then filt ++ [r]
      else widenLoop nd k ws (filt ++ [r]) (r.id :: seen)
    else widenLoop nd k ws filt seen

/-- Declarative form of what the widening loop appends: the widened results
that match and whose id is not yet seen, deduplicated by id in order. -/
def eligible (nd : String) : List String → List SearchResult → List SearchResult
  | _, [] => []
  | seen, r :: ws =>
    if fcHit nd r ∧ r.id ∉ seen then r :: eligible nd (r.id :: seen) ws
    else eligible nd seen ws

/-- The `/search` endpoint (`search` in rag_server.py), for a request with
an optional `file_contains` filter (`where` filters are orthogonal and
folded into `store`). -/
def search_endpoint (store : Nat → List SearchResult) (top_k : Nat)
    (file_contains : Option String) : List SearchResult :=
  let results := retriever_search store top_k
  match file_contains with
  | none => results.take top_k
  | some needle =>
    if needle = "" then results.take top_k
    else
      let nd := lowerStr needle
      let filt := results.filter (fun r => fcHit nd r)
      let filt2 :=
        if filt.length < top_k then
          widenLoop nd top_k (retriever_search store (top_k * 4)) filt
            (filt.map (fun r => r.id))
        else filt
      filt2.take top_k

theorem widenLoop_eq (nd : String) (k : Nat) :
    ∀ (ws filt : List SearchResult) (seen : List String), filt.length < k →
      widenLoop nd k ws filt seen = filt ++ (eligible nd seen ws).take (k - filt.length) := by
  intro ws
  induction ws with
  | nil => intro filt seen _; simp [widenLoop, eligible]
  | cons r ws ih =>
    intro filt seen hlen
    by_cases hr : fcHit nd r ∧ r.id ∉ seen
    · simp only [widenLoop, eligible, if_pos hr]
      by_cases hfull : k ≤ (filt ++ [r]).length
      · rw [if_pos hfull]
        have hk : k - filt.length = 1 := by
          simp only [List.length_append, List.length_cons, List.length_nil] at hfull ⊢
          omega
        rw [hk]
        simp
      · rw [if_neg hfull]
        have hlen' : (filt ++ [r]).length < k := by
          simp only [List.length_append, List.length_cons, List.length_nil] at hfull ⊢
          omega
        rw [ih (filt ++ [r]) (r.id :: seen) hlen']
        have hk : k - filt.length = (k - (filt ++ [r]).length) + 1 := by
          simp only [List.length_append, List.length_cons, List.length_nil] at hlen' ⊢
          omega
        rw [hk, List.take_succ_cons, List.append_assoc]
        simp
    · simp only [widenLoop, eligible, if_neg hr]
      exact ih filt seen hlen

theorem eligible_mem {nd : String} {r : SearchResult} :
    ∀ {ws : List SearchResult} {seen : List String}, r ∈ eligible nd seen ws →
      fcHit nd r ∧ r.id ∉ seen := by
  intro ws
  induction ws with
  | nil => intro seen h; simp [eligible] at h
  | cons w ws ih =>
    intro seen h
    by_cases hw : fcHit nd w ∧ w.id ∉ seen
    · simp only [eligible, if_pos hw] at h
      rcases List.mem_cons.mp h with rfl | hrest
      · exact hw
      · have := ih hrest
        exact ⟨this.1, fun hmem => this.2 (List.mem_cons_of_mem _ hmem)⟩
    · simp only [eligible, if_neg hw] at h
      exact ih h

theorem eligible_ids_nodup (nd : String) :
    ∀ (ws : List SearchResult) (seen : List String),
      ((eligible nd seen ws).map (fun r => r.id)).Nodup := by
  intro ws
  induction ws with
  | nil => intro seen; simp [eligible]
  | cons w ws ih =>
    intro seen
    by_cases hw : fcHit nd w ∧ w.id ∉ seen
    · simp only [eligible, if_pos hw, List.map_cons, List.nodup_cons]
      constructor
      · intro hmem
        obtain ⟨r, hr, hid⟩ := List.mem_map.mp hmem
        have := (eligible_mem hr).2
        exact this (hid ▸ List.mem_cons_self _ _)
      · exact ih (w.id :: seen)
    · simp only [eligible, if_neg hw]
      exact ih seen

/-- The `/search` behaviour claimed for a non-empty `file_contains` needle:
at most `top_k` results, all satisfying the (case-folded) substring filter;
no widening when the first `top_k` nearest neighbours already yield `top_k`
matches; otherwise a single `4 * top_k` re-query whose matching results are
merged after the first-pass matches, deduplicated by id, until `top_k`
results are collected or the widened pool is exhausted; and id-uniqueness of
the store's answers is preserved. -/
def SearchSpec (store : Nat → List SearchResult) (top_k : Nat) (needle : String) : Prop :=
  (search_endpoint store top_k (some needle)).length ≤ top_k ∧
  (∀ r ∈ search_endpoint store top_k (some needle), fcHit (lowerStr needle) r) ∧
  (top_k ≤ ((retriever_search store top_k).filter
      (fun r => fcHit (lowerStr needle) r)).length →
    search_endpoint store top_k (some needle)
      = ((retriever_search store top_k).filter
          (fun r => fcHit (lowerStr needle) r)).take top_k) ∧
  (((retriever_search store top_k).filter
      (fun r => fcHit (lowerStr needle) r)).length < top_k →
    search_endpoint store top_k (some needle)
      = (retriever_search store top_k).filter (fun r => fcHit (lowerStr needle) r)
        ++ (eligible (lowerStr needle)
            (((retriever_search store top_k).filter
              (fun r => fcHit (lowerStr needle) r)).map (fun r => r.id))
            (retriever_search store (top_k * 4))).take
          (top_k - ((retriever_search store top_k).filter
            (fun r => fcHit (lowerStr needle) r)).length)) ∧
  (((retriever_search store top_k).map (fun r => r.id)).Nodup →
    ((search_endpoint store top_k (some needle)).map (fun r => r.id)).Nodup)

/-- C9 (confirmed): the `/search` endpoint's substring-filter widening
behaves as claimed for every store, `top_k` and non-empty filter needle. -/
theorem C9_search_filter_widening (store : Nat → List SearchResult) (top_k : Nat)
    (needle : String) (hne : needle ≠ "") : SearchSpec store top_k needle := by
  have hout : search_endpoint store top_k (some needle)
      = (if ((retriever_search store top_k).filter
            (fun r => fcHit (lowerStr needle) r)).length < top_k then
          widenLoop (lowerStr needle) top_k (retriever_search store (top_k * 4))
            ((retriever_search store top_k).filter (fun r => fcHit (lowerStr needle) r))
            (((retriever_search store top_k).filter
              (fun r => fcHit (lowerStr needle) r)).map (fun r => r.id))
        else
          (retriever_search store top_k).filter
            (fun r => fcHit (lowerStr needle) r)).take top_k := by
    unfold search_endpoint
    dsimp only
    rw [if_neg hne]
  have hfiltnodup : ((retriever_search store top_k).map (fun r => r.id)).Nodup →
      (((retriever_search store top_k).filter
        (fun r => fcHit (lowerStr needle) r)).map (fun r => r.id)).Nodup := by
    intro hnd
    exact hnd.sublist ((List.filter_sublist _).map (fun r : SearchResult => r.id))
  by_cases hwiden : ((retriever_search store top_k).filter
      (fun r => fcHit (lowerStr needle) r)).length < top_k
  · rw [if_pos hwiden] at hout
    rw [widenLoop_eq (lowerStr needle) top_k _ _ _ hwiden] at hout
    have hlenle :
        (((retriever_search store top_k).filter (fun r => fcHit (lowerStr needle) r))
          ++ (eligible (lowerStr needle)
              (((retriever_search store top_k).filter
                (fun r => fcHit (lowerStr needle) r)).map (fun r => r.id))
              (retriever_search store (top_k * 4))).take
            (top_k - ((retriever_search store top_k).filter
              (fun r => fcHit (lowerStr needle) r)).length)).length ≤ top_k := by
      rw [List.length_append]
      have := List.length_take_le
        (top_k - ((retriever_search store top_k).filter
          (fun r => fcHit (lowerStr needle) r)).length)
        (eligible (lowerStr needle)
          (((retriever_search store top_k).filter
            (fun r => fcHit (lowerStr needle) r)).map (fun r => r.id))
          (retriever_search store (top_k * 4)))
      omega
    rw [List.take_of_length_le hlenle] at hout
    refine ⟨?_, ?_, ?_, ?_, ?_⟩
    · rw [hout]; exact hlenle
    · intro r hr
      rw [hout] at hr
      rcases List.mem_append.mp hr with hf | he
      · exact (List.mem_filter.mp hf).2
      · exact (eligible_mem (List.mem_of_mem_take he)).1
    · intro hge; omega
    · intro _; exact hout
    · intro hnd
      rw [hout, List.map_append, List.nodup_append]
      refine ⟨hfiltnodup hnd, ?_, ?_⟩
      · exact (eligible_ids_nodup (lowerStr needle) _ _).sublist
          ((List.take_sublist _ _).map (fun r : SearchResult => r.id))
      · intro a ha hb
        obtain ⟨r, hr, hrid⟩ := List.mem_map.mp hb
        have : r.id ∉ ((retriever_search store top_k).filter
            (fun r => fcHit (lowerStr needle) r)).map (fun r => r.id) :=
          (eligible_mem (List.mem_of_mem_take hr)).2
        exact this (hrid ▸ ha)
  · rw [if_neg hwiden] at hout
    refine ⟨?_, ?_, ?_, ?_, ?_⟩
    · rw [hout]; exact List.length_take_le _ _
    · intro r hr
      rw [hout] at hr
      exact (List.mem_filter.mp (List.mem_of_mem_take hr)).2
    · intro _; exact hout
    · intro hlt; omega
    · intro hnd
      rw [hout]
      exact (hfiltnodup hnd).sublist ((List.take_sublist _ _).map (fun r : SearchResult => r.id))

/-- The concrete store of the C9 witness: four indexed chunks, two of whose
paths contain the (case-folded) needle `"a"`. -/
def searchBase : List SearchResult :=
  [⟨"id1", "t1", some "b.txt"⟩, ⟨"id2", "t2", some "a1.txt"⟩,
   ⟨"id3", "t3", some "a2.txt"⟩, ⟨"id4", "t4", some "zzz"⟩]

def searchStore0 : Nat → List SearchResult :=
  fun n => searchBase.take n

/-- Witness for C9: `top_k = 2`, needle `"A"`. The first two nearest
neighbours contain one match, so the endpoint re-queries with `4 * top_k`,
merges the second matching result and returns exactly two matching
results. -/
theorem C9_search_filter_widening_witness :
    "A" ≠ "" ∧ SearchSpec searchStore0 2 "A" ∧
    search_endpoint searchStore0 2 (some "A")
      = [⟨"id2", "t2", some "a1.txt"⟩, ⟨"id3", "t3", some "a2.txt"⟩] :=
  ⟨by decide, C9_search_filter_widening searchStore0 2 "A" (by decide), by decide⟩

/-- Witness for C6: the double call at a concrete healthy environment. -/
theorem C6_second_upsert_writes_nothing_witness :
    (envEmptyText.shouldIndex "/docs/a.txt" ∧ envEmptyText.stableCheck "/docs/a.txt" ∧
      envEmptyText.statMtime "/docs/a.txt" = some 2) ∧
    ((upsert_file envEmptyText (upsert_file envEmptyText [] "/docs/a.txt").1 "/docs/a.txt").2.1
        = [] ∧
      (upsert_file envEmptyText (upsert_file envEmptyText [] "/docs/a.txt").1 "/docs/a.txt").2.2
        = .skippedUnchanged ∧
      (upsert_file envEmptyText (upsert_file envEmptyText [] "/docs/a.txt").1 "/docs/a.txt").1
        = (upsert_file envEmptyText [] "/docs/a.txt").1) :=
  ⟨⟨rfl, rfl, rfl⟩,
    C6_second_upsert_writes_nothing envEmptyText [] "/docs/a.txt" 2 rfl rfl rfl⟩

end ActivateRag
